import Mathlib

/-!
Verification of the user-management CRUD core of `app.py`.

The embedding models the handlers of `src/app.py` over an in-memory list of
rows standing for the SQLite `users` table. Time is an abstract `Nat` tick
passed to every mutating handler (the code reads `datetime.utcnow()`).

Stored columns are `Option`-valued because every column of `UserDB` except
the primary key is nullable (SQLAlchemy `Column` defaults to
`nullable=True`), and a PATCH with an explicit JSON `null` writes `NULL`
(pydantic v1 keeps explicitly-set `None` under `exclude_unset=True`).

Row order of the list mirrors the rowid scan order SQLite uses for the
unordered queries in `get_users` / `search_users`. The `contains` filters
compile to unescaped `LIKE '%term%'` patterns, embedded by `likeMatch`:
`%` and `_` inside the supplied term act as wildcards, and matching folds
ASCII case. Id assignment is
delegated by the code to SQLite (`id = Column(Integer, primary_key=True)`,
no AUTOINCREMENT): per the SQLite documentation the new rowid is one larger
than the largest rowid currently in use, which `nextId` embeds.
-/

/-- A stored row of the `users` table (`UserDB` in `app.py`).
`created_at` / `updated_at` are abstract `Nat` timestamps. -/
structure UserDB where
  id : Nat
  name : Option String
  email : Option String
  age : Option Int
  bio : Option String
  created_at : Nat
  updated_at : Nat
deriving Repr, DecidableEq

/-- The `users` table, in rowid (scan) order. -/
abbrev Store := List UserDB

/-- A full create/replace payload (`UserCreate` = `UserBase` in `app.py`). -/
structure UserCreate where
  name : String
  email : String
  age : Int
  bio : Option String
deriving Repr, DecidableEq

/-- A PATCH payload (`UserUpdate` in `app.py`). For each field, `none` means
the key is absent from the JSON body, `some none` an explicit JSON `null`,
`some (some v)` a value (pydantic v1 `exclude_unset` distinguishes the
first from the other two). -/
structure UserUpdate where
  name : Option (Option String)
  email : Option (Option String)
  age : Option (Option Int)
  bio : Option (Option String)
deriving Repr, DecidableEq

/-- The error taxonomy the handlers surface: 422 (pydantic/FastAPI
parameter validation, with the offending field names), 400 "Email already
registered", 404 "User not found". -/
inductive ApiError where
  | validation (fields : List String)
  | conflict
  | notFound
deriving Repr, DecidableEq

/-- Literal prefix test on `List Char` (spec-side building block for the
substring notion the specification's words describe). -/
def listIsPre : List Char → List Char → Bool
  | [], _ => true
  | _ :: _, [] => false
  | a :: as, b :: bs => a == b && listIsPre as bs

/-- Literal substring test `listHasSub n h` : `n` occurs as a contiguous
sublist of `h` (spec-side building block). -/
def listHasSub (needle : List Char) : List Char → Bool
  | [] => needle.isEmpty
  | c :: t => listIsPre needle (c :: t) || listHasSub needle t

/-- ASCII lower-casing of one character: SQLite's LIKE folds the case of
the ASCII letters only. -/
def asciiLower (c : Char) : Char :=
  if 'A' ≤ c ∧ c ≤ 'Z' then Char.ofNat (c.toNat + 32) else c

/-- Disjunction of `f` over every suffix of the text (including the empty
one): how a `%` wildcard consumes any run of characters. -/
def likeAny (f : List Char → Bool) : List Char → Bool
  | [] => f []
  | c :: ts => f (c :: ts) || likeAny f ts

/-- SQLite `LIKE` pattern matching: `%` matches any run of characters, `_`
matches exactly one character, and every other pattern character is
compared ASCII-case-insensitively (`case_sensitive_like` is off and the
code never sets it). There is no ESCAPE clause. -/
def likeMatch : List Char → List Char → Bool
  | [], t => t.isEmpty
  | p :: ps, t =>
    if p = '%' then likeAny (likeMatch ps) t
    else match t with
      | [] => false
      | c :: ts => (p == '_' || asciiLower p == asciiLower c) && likeMatch ps ts

/-- Embedding `strContains hay needle`: SQLAlchemy `contains(needle)`
compiles to `hay LIKE '%' || needle || '%'` with no autoescape, so `%` and
`_` occurring in the needle act as wildcards. -/
def strContains (hay needle : String) : Bool :=
  likeMatch ('%' :: (needle.toList ++ ['%'])) hay.toList

/-- A nullable column matches the LIKE pattern; SQL `NULL LIKE …` is not
true, so a `NULL` column never matches. -/
def colContains (col : Option String) (needle : String) : Bool :=
  match col with
  | some s => strContains s needle
  | none => false

/-- Spec-side ASCII-case-insensitive literal substring test (the
specification's "contains as a substring", under the implementation's
consistent case convention); unlike the program's LIKE, `%` and `_` are
ordinary characters here. -/
def substrCI (needle hay : String) : Bool :=
  listHasSub (needle.toList.map asciiLower) (hay.toList.map asciiLower)

/-- Spec-side substring test over a nullable column. -/
def subCol (col : Option String) (needle : String) : Bool :=
  match col with
  | some s => substrCI needle s
  | none => false

/-- No SQL LIKE wildcard (`%` or `_`) occurs in the string. -/
def noWild (txt : String) : Bool :=
  txt.toList.all (fun c => !(c == '%') && !(c == '_'))

/-- The pydantic field constraints of `UserBase` (= `UserCreate`): `name`
1–100 chars, `age` in [0,150], `bio` at most 500 chars when present; `email`
is an unconstrained `str`. Returns the offending field names, `[]` when the
payload is accepted. -/
def validateUserCreate (p : UserCreate) : List String :=
  (if p.name.length < 1 || 100 < p.name.length then ["name"] else []) ++
  (if p.age < 0 || 150 < p.age then ["age"] else []) ++
  (match p.bio with
   | some b => if 500 < b.length then ["bio"] else []
   | none => [])

/-- The pydantic field constraints of `UserUpdate`: every field optional,
the same per-field rules applied only to non-`None` values (pydantic v1
skips constraints on a `None` value of an `Optional` field). -/
def validateUserUpdate (p : UserUpdate) : List String :=
  (match p.name with
   | some (some v) => if v.length < 1 || 100 < v.length then ["name"] else []
   | _ => []) ++
  (match p.age with
   | some (some a) => if a < 0 || 150 < a then ["age"] else []
   | _ => []) ++
  (match p.bio with
   | some (some b) => if 500 < b.length then ["bio"] else []
   | _ => [])

/-- SQLite rowid allocation for `INTEGER PRIMARY KEY` without AUTOINCREMENT:
one larger than the largest rowid currently in use (1 on an empty table). -/
def nextId (s : Store) : Nat :=
  (s.map (·.id)).foldr Nat.max 0 + 1

/-- Query `db.query(UserDB).filter(UserDB.email == e).first()` is non-empty. -/
def emailTaken (e : String) (s : Store) : Bool :=
  s.any (fun u => u.email == some e)

/-- Query `db.query(UserDB).filter(UserDB.id == uid).first()`. -/
def findUser (uid : Int) (s : Store) : Option UserDB :=
  s.find? (fun u => ((u.id : Int)) == uid)

/-- Replace the first row satisfying `p` by `f` of it (SQLAlchemy mutates
the fetched row in place and commits). -/
def setFirst (p : UserDB → Bool) (f : UserDB → UserDB) : Store → Store
  | [] => []
  | u :: us => if p u then f u :: us else u :: setFirst p f us

/-- Remove the first row satisfying `p` (`db.delete(db_user)`). -/
def removeFirst (p : UserDB → Bool) : Store → Store
  | [] => []
  | u :: us => if p u then us else u :: removeFirst p us

/-- Endpoint `POST /users` (`create_user` in `app.py`): pydantic validation of the
body, then the duplicate-email pre-check, then insert with
`created_at = updated_at = now` and a fresh rowid. Returns the stored
record and the table after the request. -/
def create_user (now : Nat) (p : UserCreate) (s : Store) :
    Except ApiError UserDB × Store :=
  match validateUserCreate p with
  | f :: fs => (.error (.validation (f :: fs)), s)
  | [] =>
    if emailTaken p.email s then
      (.error .conflict, s)
    else
      let u : UserDB :=
        ⟨nextId s, some p.name, some p.email, some p.age, p.bio, now, now⟩
      (.ok u, s ++ [u])

/-- Endpoint `GET /users/{user_id}` (`get_user_by_id`): the path parameter is
declared `gt=0`, then a 404 when no row matches. -/
def get_user_by_id (uid : Int) (s : Store) : Except ApiError UserDB × Store :=
  if uid ≤ 0 then (.error (.validation ["user_id"]), s)
  else
    match findUser uid s with
    | none => (.error .notFound, s)
    | some u => (.ok u, s)

/-- Filter chain of `get_users`: the handler conditionally appends a
name-substring filter (skipped when `name` is falsy, i.e. absent or empty)
and inclusive age-bound filters to the query, in that order. -/
def applyFilters (name : Option String) (min_age max_age : Option Int)
    (s : Store) : Store :=
  let q1 : Store := match name with
    | some nm => if nm ≠ "" then s.filter (fun u => colContains u.name nm) else s
    | none => s
  let q2 : Store := match min_age with
    | some m => q1.filter (fun u => match u.age with
        | some a => m ≤ a
        | none => false)
    | none => q1
  match max_age with
  | some m => q2.filter (fun u => match u.age with
      | some a => a ≤ m
      | none => false)
  | none => q2

/-- Endpoint `GET /users` (`get_users`): FastAPI validates `skip ≥ 0`,
`1 ≤ limit ≤ 1000`, `min_age ≥ 0`, `max_age ≥ 0`; the handler then builds
the filter chain and applies `offset(skip).limit(limit)`. -/
def get_users (skip limit : Int) (name : Option String)
    (min_age max_age : Option Int) (s : Store) :
    Except ApiError (List UserDB) × Store :=
  if skip < 0 || limit < 1 || 1000 < limit ||
      (match min_age with | some m => m < 0 | none => false) ||
      (match max_age with | some m => m < 0 | none => false) then
    (.error (.validation ["query"]), s)
  else
    (.ok (((applyFilters name min_age max_age s).drop skip.toNat).take
      limit.toNat), s)

/-- Spec-side matching predicate of the `list` operation (§4.2): a row
matches when it satisfies ALL supplied filters — literal name-substring,
inclusive minimum age, inclusive maximum age. Written from the
specification's words, to be compared with the handler's chained query. -/
def matchesFilters (name : Option String) (min_age max_age : Option Int)
    (u : UserDB) : Bool :=
  (match name with
   | some nm => subCol u.name nm
   | none => true) &&
  (match min_age with
   | some m => (match u.age with | some a => m ≤ a | none => false)
   | none => true) &&
  (match max_age with
   | some m => (match u.age with | some a => a ≤ m | none => false)
   | none => true)

/-- Spec-side description of `list` (§4.2): keep the rows matching all
supplied filters, skip the first `skip` of them, return at most `limit`,
in stored order. Written from the specification's words. -/
def listSpec (skip limit : Nat) (name : Option String)
    (min_age max_age : Option Int) (s : Store) : List UserDB :=
  ((s.filter (matchesFilters name min_age max_age)).drop skip).take limit

/-- Endpoint `PUT /users/{user_id}` (`update_user`): path `gt=0`, body validated as
`UserCreate`, 404 when absent, conflict when the email is being changed to
one already present, otherwise overwrite every field and refresh
`updated_at`. -/
def update_user (now : Nat) (uid : Int) (p : UserCreate) (s : Store) :
    Except ApiError UserDB × Store :=
  if uid ≤ 0 then (.error (.validation ["user_id"]), s)
  else
    match validateUserCreate p with
    | f :: fs => (.error (.validation (f :: fs)), s)
    | [] =>
      match findUser uid s with
      | none => (.error .notFound, s)
      | some db_user =>
        if db_user.email != some p.email && emailTaken p.email s then
          (.error .conflict, s)
        else
          let u' : UserDB :=
            { db_user with
              name := some p.name, email := some p.email,
              age := some p.age, bio := p.bio, updated_at := now }
          (.ok u', setFirst (fun v => ((v.id : Int)) == uid) (fun _ => u') s)

/-- Merge step of `partial_update_user` with `exclude_unset` semantics of `partial_update_user`: fields whose key is
present in the body (value or explicit `null`) overwrite the row, absent
keys leave it untouched; `updated_at` is refreshed. -/
def applyPatch (p : UserUpdate) (db_user : UserDB) (now : Nat) : UserDB :=
  { db_user with
    name := match p.name with | none => db_user.name | some v => v
    email := match p.email with | none => db_user.email | some v => v
    age := match p.age with | none => db_user.age | some v => v
    bio := match p.bio with | none => db_user.bio | some v => v
    updated_at := now }

/-- Endpoint `PATCH /users/{user_id}` (`partial_update_user`): path `gt=0`, body
validated as `UserUpdate`, 404 when absent; the duplicate-email check runs
only when the body's email is a non-`None` value differing from the stored
one; then the `exclude_unset` merge. -/
def partial_update_user (now : Nat) (uid : Int) (p : UserUpdate) (s : Store) :
    Except ApiError UserDB × Store :=
  if uid ≤ 0 then (.error (.validation ["user_id"]), s)
  else
    match validateUserUpdate p with
    | f :: fs => (.error (.validation (f :: fs)), s)
    | [] =>
      match findUser uid s with
      | none => (.error .notFound, s)
      | some db_user =>
        if (match p.email with
            | some (some e) => db_user.email != some e && emailTaken e s
            | _ => false) then
          (.error .conflict, s)
        else
          let u' := applyPatch p db_user now
          (.ok u', setFirst (fun v => ((v.id : Int)) == uid) (fun _ => u') s)

/-- Endpoint `DELETE /users/{user_id}` (`delete_user`): path `gt=0`, 404 when
absent, otherwise the row is removed permanently. -/
def delete_user (uid : Int) (s : Store) : Except ApiError Unit × Store :=
  if uid ≤ 0 then (.error (.validation ["user_id"]), s)
  else
    match findUser uid s with
    | none => (.error .notFound, s)
    | some _ => (.ok (), removeFirst (fun v => ((v.id : Int)) == uid) s)

/-- Endpoint `GET /users/search/{search_term}` (`search_users`): the path parameter
has `min_length=1`; the query keeps rows whose `name` OR `email` contains
the term. -/
def search_users (term : String) (s : Store) :
    Except ApiError (List UserDB) × Store :=
  if term.length < 1 then (.error (.validation ["search_term"]), s)
  else
    (.ok (s.filter (fun u =>
        colContains u.name term || colContains u.email term)), s)

/-- The table states reachable from the empty table through the API's
mutating requests (reads do not change the table). -/
inductive Reachable : Store → Prop where
  | empty : Reachable []
  | create {s} (now : Nat) (p : UserCreate) :
      Reachable s → Reachable (create_user now p s).2
  | replace {s} (now : Nat) (uid : Int) (p : UserCreate) :
      Reachable s → Reachable (update_user now uid p s).2
  | patch {s} (now : Nat) (uid : Int) (p : UserUpdate) :
      Reachable s → Reachable (partial_update_user now uid p s).2
  | del {s} (uid : Int) :
      Reachable s → Reachable (delete_user uid s).2

/-- At most one stored row carries any given (non-NULL) email. -/
def EmailUnique (s : Store) : Prop :=
  ∀ e : String, s.countP (fun u => u.email == some e) ≤ 1
/-! Sample payloads and rows for concrete witnesses. -/

/-- Sample create payload. -/
def pJohn : UserCreate := ⟨"John Doe", "john@example.com", 30, some "dev"⟩

/-- Sample create payload. -/
def pJane : UserCreate := ⟨"Jane Smith", "jane@example.com", 25, none⟩

/-- Sample create payload. -/
def pBob : UserCreate := ⟨"Bob Johnson", "bob@example.com", 35, none⟩

/-- Demo table for the search example of C8. -/
def searchDemo : Store :=
  [⟨1, some "John Doe", some "jd@x.com", some 30, none, 0, 0⟩,
   ⟨2, some "Alice", some "johnny@x.com", some 25, none, 0, 0⟩,
   ⟨3, some "Jane Smith", some "jane@x.com", some 22, none, 0, 0⟩]


/-- Acceptance characterisation of the create/replace validator. -/
lemma validateUserCreate_eq_nil_iff (p : UserCreate) :
    validateUserCreate p = [] ↔
      (1 ≤ p.name.length ∧ p.name.length ≤ 100 ∧
       0 ≤ p.age ∧ p.age ≤ 150 ∧ ∀ b ∈ p.bio, b.length ≤ 500) := by
  rcases p with ⟨n, e, a, b⟩
  cases b <;>
    simp [validateUserCreate, List.append_eq_nil, ite_eq_right_iff, not_or] <;>
    omega

set_option maxRecDepth 4000 in
/-- C6: the validator accepts a create/replace payload iff `name` has length
in [1,100], `age` lies in [0,150], and `bio` (when present) has length at
most 500; ages 0 and 150 and a 500-character bio are accepted, while ages
-1 and 151 and a 501-character bio are rejected with a validation error. -/
theorem C6_validator_accepts_iff :
    (∀ p : UserCreate,
      validateUserCreate p = [] ↔
        (1 ≤ p.name.length ∧ p.name.length ≤ 100 ∧
         0 ≤ p.age ∧ p.age ≤ 150 ∧ ∀ b ∈ p.bio, b.length ≤ 500)) ∧
    validateUserCreate ⟨"Al", "a@b", 0, none⟩ = [] ∧
    validateUserCreate ⟨"Al", "a@b", 150, none⟩ = [] ∧
    validateUserCreate ⟨"Al", "a@b", 30, some (String.mk (List.replicate 500 'x'))⟩ = [] ∧
    validateUserCreate ⟨"Al", "a@b", -1, none⟩ = ["age"] ∧
    validateUserCreate ⟨"Al", "a@b", 151, none⟩ = ["age"] ∧
    validateUserCreate ⟨"Al", "a@b", 30, some (String.mk (List.replicate 501 'x'))⟩ = ["bio"] :=
  ⟨validateUserCreate_eq_nil_iff, by decide, by decide, by decide, by decide,
   by decide, by decide⟩

/-- Witness for C6 at the sample payload `pJohn`. -/
theorem C6_validator_accepts_iff_witness :
    1 ≤ pJohn.name.length ∧ pJohn.name.length ≤ 100 ∧
      0 ≤ pJohn.age ∧ pJohn.age ≤ 150 ∧ ∀ b ∈ pJohn.bio, b.length ≤ 500 :=
  (C6_validator_accepts_iff.1 pJohn).mp (by decide)

/-- C9: a request that fails with any error leaves the table untouched:
every error branch of the four mutating handlers returns before any row is
written. -/
theorem C9_failed_requests_leave_store_unchanged :
    ∀ (now : Nat) (uid : Int) (p : UserCreate) (q : UserUpdate) (s : Store)
      (e : ApiError),
      ((create_user now p s).1 = .error e → (create_user now p s).2 = s) ∧
      ((update_user now uid p s).1 = .error e → (update_user now uid p s).2 = s) ∧
      ((partial_update_user now uid q s).1 = .error e →
        (partial_update_user now uid q s).2 = s) ∧
      ((delete_user uid s).1 = .error e → (delete_user uid s).2 = s) := by
  intro now uid p q s e
  refine ⟨?_, ?_, ?_, ?_⟩
  · unfold create_user
    cases hv : validateUserCreate p
    · by_cases ht : emailTaken p.email s <;> simp [ht]
    · simp
  · unfold update_user
    by_cases hu : uid ≤ 0
    · simp [hu]
    · cases hv : validateUserCreate p
      · cases hf : findUser uid s with
        | none => simp [hu, hf]
        | some db =>
          by_cases hc : (db.email != some p.email && emailTaken p.email s) = true <;>
            simp [hu, hf, hc]
      · simp [hu]
  · unfold partial_update_user
    by_cases hu : uid ≤ 0
    · simp [hu]
    · cases hv : validateUserUpdate q
      · cases hf : findUser uid s with
        | none => simp [hu, hf]
        | some db =>
          by_cases hc : (match q.email with
              | some (some e0) => db.email != some e0 && emailTaken e0 s
              | _ => false) = true <;>
            simp [hu, hf, hc]
      · simp [hu]
  · unfold delete_user
    by_cases hu : uid ≤ 0
    · simp [hu]
    · cases hf : findUser uid s with
      | none => simp [hu, hf]
      | some db => simp [hu, hf]

/-- Witness for C9: deleting from the empty table fails and leaves it empty. -/
theorem C9_failed_requests_leave_store_unchanged_witness :
    (delete_user 1 ([] : Store)).2 = [] :=
  (C9_failed_requests_leave_store_unchanged 0 1 pJohn ⟨none, none, none, none⟩
    [] .notFound).2.2.2 rfl

/-- Duplicate-email test over an extended table. -/
lemma emailTaken_append (e : String) (s : Store) (u : UserDB) :
    emailTaken e (s ++ [u]) = (emailTaken e s || (u.email == some e)) := by
  simp [emailTaken, List.any_append]

/-- Conflict branch of `create_user`. -/
lemma create_user_conflict (now : Nat) (p : UserCreate) (s : Store)
    (hv : validateUserCreate p = []) (ht : emailTaken p.email s = true) :
    create_user now p s = (.error .conflict, s) := by
  simp [create_user, hv, ht]

/-- C2: `create` fails with a conflict when the email is already stored;
otherwise it assigns the fresh rowid, stamps `created_at = updated_at = now`,
appends the row, and returns exactly the stored record; consequently the
second of two creates with the same email always fails with a conflict. -/
theorem C2_create_contract :
    ∀ (now now2 : Nat) (p q : UserCreate) (s : Store),
      (validateUserCreate p = [] → emailTaken p.email s = true →
        create_user now p s = (.error .conflict, s)) ∧
      (validateUserCreate p = [] → emailTaken p.email s = false →
        create_user now p s =
          (.ok ⟨nextId s, some p.name, some p.email, some p.age, p.bio, now, now⟩,
           s ++ [⟨nextId s, some p.name, some p.email, some p.age, p.bio, now, now⟩])) ∧
      (∀ u, (create_user now p s).1 = .ok u → validateUserCreate q = [] →
        q.email = p.email →
        (create_user now2 q (create_user now p s).2).1 = .error .conflict) := by
  intro now now2 p q s
  refine ⟨?_, ?_, ?_⟩
  · intro hv ht
    simp [create_user, hv, ht]
  · intro hv ht
    simp [create_user, hv, ht]
  · intro u hok hvq hqe
    cases hv : validateUserCreate p with
    | cons f fs => simp [create_user, hv] at hok
    | nil =>
      by_cases ht : emailTaken p.email s
      · simp [create_user, hv, ht] at hok
      · have hstate : (create_user now p s).2 =
            s ++ [⟨nextId s, some p.name, some p.email, some p.age, p.bio, now, now⟩] := by
          simp [create_user, hv, ht]
        have htaken : emailTaken q.email (create_user now p s).2 = true := by
          rw [hstate, emailTaken_append, hqe]
          simp
        rw [create_user_conflict now2 q _ hvq htaken]

/-- Witness for C2: creating `pJohn` on an empty table succeeds with id 1,
and re-creating the same email right after fails with a conflict. -/
theorem C2_create_contract_witness :
    create_user 0 pJohn ([] : Store) =
      (.ok ⟨1, some "John Doe", some "john@example.com", some 30, some "dev", 0, 0⟩,
       [⟨1, some "John Doe", some "john@example.com", some 30, some "dev", 0, 0⟩]) ∧
    (create_user 1 pJohn (create_user 0 pJohn ([] : Store)).2).1 = .error .conflict := by
  refine ⟨?_, ?_⟩
  · exact ((C2_create_contract 0 1 pJohn pJohn []).2.1 (by decide) rfl).trans rfl
  · exact (C2_create_contract 0 1 pJohn pJohn []).2.2
      ⟨1, some "John Doe", some "john@example.com", some 30, some "dev", 0, 0⟩
      rfl (by decide) rfl

/-- Every stored id is below the next allocated rowid. -/
lemma mem_id_lt_nextId (s : Store) : ∀ u ∈ s, u.id < nextId s := by
  induction s with
  | nil => intro u hu; cases hu
  | cons v vs ih =>
    intro u hu
    rcases List.mem_cons.mp hu with rfl | hmem
    · have h2 : u.id ≤ Nat.max u.id ((vs.map (·.id)).foldr Nat.max 0) :=
        Nat.le_max_left _ _
      simp only [nextId, List.map_cons, List.foldr_cons]
      omega
    · have h1 : u.id < (vs.map (·.id)).foldr Nat.max 0 + 1 := ih u hmem
      have h2 : (vs.map (·.id)).foldr Nat.max 0 ≤
          Nat.max v.id ((vs.map (·.id)).foldr Nat.max 0) := Nat.le_max_right _ _
      simp only [nextId, List.map_cons, List.foldr_cons]
      omega

/-- Counterexample to C5 as stated: after creating ids 1 and 2 and deleting
id 2, the next create is issued id 2 again — SQLite allocates the rowid as
one more than the largest rowid currently in use, so a deleted maximal id is
reused. -/
theorem C5_id_reuse_counterexample :
    ((create_user 1 pJane (create_user 0 pJohn ([] : Store)).2).1.map (·.id) =
      Except.ok 2) ∧
    ((delete_user 2
        (create_user 1 pJane (create_user 0 pJohn ([] : Store)).2).2).1 =
      Except.ok ()) ∧
    ((create_user 2 pBob
        (delete_user 2
          (create_user 1 pJane (create_user 0 pJohn ([] : Store)).2).2).2).1.map
        (·.id) = Except.ok 2) :=
  ⟨rfl, rfl, rfl⟩

/-- C5 (amended): a successful create returns the id one greater than the
largest currently stored id — in particular an id strictly greater than,
hence distinct from, every id currently in the table; an id may however be
issued again after the row holding the largest id is deleted. -/
theorem C5_fresh_id_amended :
    ∀ (now : Nat) (p : UserCreate) (s : Store) (u : UserDB),
      (create_user now p s).1 = .ok u →
      u.id = nextId s ∧ ∀ v ∈ s, v.id < u.id := by
  intro now p s u hok
  cases hv : validateUserCreate p with
  | cons f fs => simp [create_user, hv] at hok
  | nil =>
    by_cases ht : emailTaken p.email s
    · simp [create_user, hv, ht] at hok
    · simp [create_user, hv, ht] at hok
      obtain rfl := hok.symm
      exact ⟨rfl, mem_id_lt_nextId s⟩

/-- Witness for C5 (amended) at a concrete create on the empty table. -/
theorem C5_fresh_id_amended_witness :
    (UserDB.mk 1 (some "John Doe") (some "john@example.com") (some 30)
        (some "dev") 0 0).id = nextId ([] : Store) ∧
      ∀ v ∈ ([] : Store), v.id <
        (UserDB.mk 1 (some "John Doe") (some "john@example.com") (some 30)
          (some "dev") 0 0).id :=
  C5_fresh_id_amended 0 pJohn []
    ⟨1, some "John Doe", some "john@example.com", some 30, some "dev", 0, 0⟩ rfl


/-- Matching every suffix succeeds once the empty suffix matches. -/
lemma likeAny_of_nil (f : List Char → Bool) (hf : f [] = true) :
    ∀ t, likeAny f t = true := by
  intro t
  induction t with
  | nil => simpa [likeAny] using hf
  | cons c ts ih => simp [likeAny, ih]

/-- A lone `%` pattern matches every text. -/
lemma likeMatch_pct (t : List Char) : likeMatch ['%'] t = true := by
  simp only [likeMatch, if_pos rfl]
  exact likeAny_of_nil _ rfl t

/-- A wildcard-free pattern followed by `%` matches exactly the texts that
start with the pattern, ASCII case folded. -/
lemma likeMatch_lit (n : List Char) (t : List Char)
    (hn : ∀ c ∈ n, c ≠ '%' ∧ c ≠ '_') :
    likeMatch (n ++ ['%']) t = listIsPre (n.map asciiLower) (t.map asciiLower) := by
  induction n generalizing t with
  | nil =>
    simp only [List.nil_append, List.map_nil, listIsPre]
    exact likeMatch_pct t
  | cons a n' ih =>
    have ha := hn a (by simp)
    cases t with
    | nil => simp [likeMatch, listIsPre, ha.1]
    | cons c ts =>
      have hih := ih ts (fun x hx => hn x (by simp [hx]))
      have ha2 : (a == '_') = false := by simpa using ha.2
      simp [likeMatch, listIsPre, ha.1, ha2, hih]

/-- Wrapped in `%…%`, a wildcard-free pattern matches exactly the texts
containing it as a literal substring, ASCII case folded. -/
lemma likeMatch_hasSub (n t : List Char)
    (hn : ∀ c ∈ n, c ≠ '%' ∧ c ≠ '_') :
    likeMatch ('%' :: (n ++ ['%'])) t =
      listHasSub (n.map asciiLower) (t.map asciiLower) := by
  induction t with
  | nil =>
    cases n with
    | nil => rfl
    | cons a n' =>
      have ha := hn a (by simp)
      simp [likeMatch, likeAny, listHasSub, ha.1]
  | cons c ts ih =>
    have h1 : likeMatch (n ++ ['%']) (c :: ts) =
        listIsPre (n.map asciiLower) ((c :: ts).map asciiLower) :=
      likeMatch_lit n (c :: ts) hn
    have h2 : likeAny (likeMatch (n ++ ['%'])) ts =
        listHasSub (n.map asciiLower) (ts.map asciiLower) := ih
    simp only [likeMatch, if_pos rfl, likeAny, listHasSub, List.map_cons]
    rw [h1, h2]
    simp [listHasSub]

/-- On wildcard-free needles the program's LIKE filter is exactly the
spec-side case-insensitive substring test. -/
lemma strContains_eq_substrCI (hay needle : String) (h : noWild needle = true) :
    strContains hay needle = substrCI needle hay := by
  have hn : ∀ c ∈ needle.toList, c ≠ '%' ∧ c ≠ '_' := by
    intro c hc
    have := List.all_eq_true.mp h c hc
    simpa using this
  exact likeMatch_hasSub needle.toList hay.toList hn

/-- Column-level version of `strContains_eq_substrCI`. -/
lemma colContains_eq_subCol (col : Option String) (needle : String)
    (h : noWild needle = true) :
    colContains col needle = subCol col needle := by
  cases col with
  | none => rfl
  | some x => simp [colContains, subCol, strContains_eq_substrCI x needle h]

/-- Counterexample to C8 as stated: the term "j_hn" is not a substring of
"John Doe" or of "jd@x.com" (even after ASCII case folding, which is the
most permissive consistent case convention the spec allows), yet the search
returns that row: the unescaped LIKE pattern lets `_` match the "o". -/
theorem C8_wildcard_counterexample :
    (search_users "j_hn" searchDemo).1 =
      .ok [⟨1, some "John Doe", some "jd@x.com", some 30, none, 0, 0⟩,
           ⟨2, some "Alice", some "johnny@x.com", some 25, none, 0, 0⟩] ∧
    substrCI "j_hn" "John Doe" = false ∧
    substrCI "j_hn" "jd@x.com" = false :=
  ⟨rfl, by decide, by decide⟩

/-- C8 (amended): `search(term)` interprets the term as an unescaped SQL
LIKE pattern wrapped in `%…%` (`%` matches any run, `_` any one character,
ASCII-case-insensitive); for terms free of `%` and `_` this is exactly
"name OR email contains the term as a substring" (disjunction, unlike the
conjunctive `list` filters), and on the demo table searching "john" matches
the row named "John Doe" and the row with email "johnny@x.com" but not
"Jane Smith". -/
theorem C8_search_contract :
    (∀ (term : String) (s : Store), term ≠ "" → noWild term = true →
      (search_users term s).1 =
        .ok (s.filter (fun u =>
          subCol u.name term || subCol u.email term))) ∧
    (search_users "john" searchDemo).1 =
      .ok [⟨1, some "John Doe", some "jd@x.com", some 30, none, 0, 0⟩,
           ⟨2, some "Alice", some "johnny@x.com", some 25, none, 0, 0⟩] := by
  constructor
  · intro term s hterm hw
    have hlen : ¬ term.length < 1 := by
      intro hcon
      apply hterm
      cases term with
      | mk data =>
        cases data with
        | nil => rfl
        | cons c cs => simp [String.length] at hcon
    have hfil : s.filter (fun u =>
        colContains u.name term || colContains u.email term) =
        s.filter (fun u => subCol u.name term || subCol u.email term) :=
      List.filter_congr (fun u _ => by
        rw [colContains_eq_subCol u.name term hw,
          colContains_eq_subCol u.email term hw])
    simp [search_users, hlen, hfil]
  · rfl

/-- Witness for C8 applied at the demo table. -/
theorem C8_search_contract_witness :
    (search_users "john" searchDemo).1 =
      .ok (searchDemo.filter (fun u =>
        subCol u.name "john" || subCol u.email "john")) :=
  C8_search_contract.1 "john" searchDemo (by decide) (by decide)

/-- Decomposition of a table around the first row matched by `find?`:
everything before it fails the test, and in-place replacement or removal
acts exactly there. -/
lemma find?_decomp {q : UserDB → Bool} {s : Store} {db_user : UserDB}
    (h : s.find? q = some db_user) :
    ∃ l₁ l₂, s = l₁ ++ db_user :: l₂ ∧ (∀ x ∈ l₁, q x = false) ∧
      q db_user = true ∧
      (∀ f, setFirst q f s = l₁ ++ f db_user :: l₂) ∧
      removeFirst q s = l₁ ++ l₂ := by
  induction s with
  | nil => simp at h
  | cons v vs ih =>
    by_cases hq : q v
    · rw [List.find?_cons_of_pos _ hq] at h
      obtain rfl : v = db_user := by injection h
      exact ⟨[], vs, rfl, by simp, hq, fun f => by simp [setFirst, hq],
        by simp [removeFirst, hq]⟩
    · rw [List.find?_cons_of_neg _ hq] at h
      obtain ⟨l₁, l₂, hs, hl₁, hdb, hset, hrem⟩ := ih h
      refine ⟨v :: l₁, l₂, by simp [hs], ?_, hdb, fun f => ?_, ?_⟩
      · intro x hx
        rcases List.mem_cons.mp hx with rfl | hx
        · simpa using hq
        · exact hl₁ x hx
      · simp [setFirst, hq, hset f]
      · simp [removeFirst, hq, hrem]

/-- Searching again after an in-place update finds the updated row, as long
as the row still matches the test. -/
lemma find?_middle {q : UserDB → Bool} {l₁ l₂ : Store} {u : UserDB}
    (h₁ : ∀ x ∈ l₁, q x = false) (hu : q u = true) :
    (l₁ ++ u :: l₂).find? q = some u := by
  induction l₁ with
  | nil => simpa using List.find?_cons_of_pos l₂ hu
  | cons v vs ih =>
    have hv : q v = false := h₁ v (by simp)
    have := ih (fun x hx => h₁ x (by simp [hx]))
    simpa [List.find?_cons_of_neg, hv] using this

/-- C3: `replace(id, candidate)` 404s when the id is absent; with the row
present and the payload valid, it conflicts exactly when the payload email
differs from the stored one and is already taken (so re-sending the row's
own email never conflicts); otherwise it overwrites every field, keeps
`id` and `created_at`, refreshes `updated_at`, and persists the new row. -/
theorem C3_replace_contract :
    ∀ (now : Nat) (uid : Int) (p : UserCreate) (s : Store),
      0 < uid → validateUserCreate p = [] →
      (findUser uid s = none → update_user now uid p s = (.error .notFound, s)) ∧
      (∀ db_user, findUser uid s = some db_user →
        (((update_user now uid p s).1 = .error .conflict) ↔
          (db_user.email ≠ some p.email ∧ emailTaken p.email s = true)) ∧
        (db_user.email = some p.email ∨ emailTaken p.email s = false →
          update_user now uid p s =
            (.ok ⟨db_user.id, some p.name, some p.email, some p.age, p.bio,
                db_user.created_at, now⟩,
              setFirst (fun v => ((v.id : Int)) == uid)
                (fun _ => ⟨db_user.id, some p.name, some p.email, some p.age,
                  p.bio, db_user.created_at, now⟩) s) ∧
          findUser uid (update_user now uid p s).2 =
            some ⟨db_user.id, some p.name, some p.email, some p.age, p.bio,
              db_user.created_at, now⟩)) := by
  intro now uid p s huid hv
  have hu : ¬ uid ≤ 0 := by omega
  constructor
  · intro hf
    simp [update_user, hu, hv, hf]
  · intro db_user hf
    constructor
    · by_cases hc : (db_user.email != some p.email && emailTaken p.email s) = true
      · simp only [update_user, if_neg hu, hv, hf]
        rw [if_pos hc]
        simp only [true_iff]
        have := hc
        rw [Bool.and_eq_true, bne_iff_ne] at this
        exact ⟨this.1, this.2⟩
      · simp only [update_user, if_neg hu, hv, hf]
        rw [if_neg hc]
        simp only [reduceCtorEq, false_iff, not_and]
        intro hne htk
        exact absurd (by rw [Bool.and_eq_true, bne_iff_ne]; exact ⟨hne, htk⟩) hc
    · intro hok
      have hc : (db_user.email != some p.email && emailTaken p.email s) = false := by
        rcases hok with heq | htk
        · simp [heq]
        · simp [htk]
      have heq : update_user now uid p s =
          (.ok ⟨db_user.id, some p.name, some p.email, some p.age, p.bio,
              db_user.created_at, now⟩,
            setFirst (fun v => ((v.id : Int)) == uid)
              (fun _ => ⟨db_user.id, some p.name, some p.email, some p.age,
                p.bio, db_user.created_at, now⟩) s) := by
        simp only [update_user, if_neg hu, hv, hf]
        rw [if_neg (by simp [hc])]
      refine ⟨heq, ?_⟩
      obtain ⟨l₁, l₂, hs, hl₁, hdb, hset, hrem⟩ := find?_decomp hf
      rw [heq]
      simp only [findUser]
      rw [hset]
      exact find?_middle hl₁ hdb

/-- Witness for C3: replacing the only row, resending its own email,
succeeds and persists the overwritten row. -/
theorem C3_replace_contract_witness :
    update_user 5 1 ⟨"John Updated", "john@example.com", 31, some "senior"⟩
        [⟨1, some "John Doe", some "john@example.com", some 30, some "dev", 0, 0⟩] =
      (.ok ⟨1, some "John Updated", some "john@example.com", some 31,
          some "senior", 0, 5⟩,
        setFirst (fun v => ((v.id : Int)) == 1)
          (fun _ => ⟨1, some "John Updated", some "john@example.com", some 31,
            some "senior", 0, 5⟩)
          [⟨1, some "John Doe", some "john@example.com", some 30, some "dev",
            0, 0⟩]) ∧
    findUser 1 (update_user 5 1
        ⟨"John Updated", "john@example.com", 31, some "senior"⟩
        [⟨1, some "John Doe", some "john@example.com", some 30, some "dev",
          0, 0⟩]).2 =
      some ⟨1, some "John Updated", some "john@example.com", some 31,
        some "senior", 0, 5⟩ :=
  ((C3_replace_contract 5 1
      ⟨"John Updated", "john@example.com", 31, some "senior"⟩
      [⟨1, some "John Doe", some "john@example.com", some 30, some "dev", 0, 0⟩]
      (by decide) (by decide)).2
    ⟨1, some "John Doe", some "john@example.com", some 30, some "dev", 0, 0⟩
    rfl).2 (Or.inl rfl)

/-- C4: a PATCH whose body is only `age := 40` keeps `name`, `email`, `bio`
(and `id`, `created_at`) and refreshes `updated_at`; in general every field
whose key is absent from the PATCH body is left untouched by the merge. -/
theorem C4_patch_frame :
    ∀ (now : Nat) (uid : Int) (s : Store) (db_user : UserDB),
      0 < uid → findUser uid s = some db_user →
      (partial_update_user now uid ⟨none, none, some (some 40), none⟩ s =
        (.ok ⟨db_user.id, db_user.name, db_user.email, some 40, db_user.bio,
            db_user.created_at, now⟩,
          setFirst (fun v => ((v.id : Int)) == uid)
            (fun _ => ⟨db_user.id, db_user.name, db_user.email, some 40,
              db_user.bio, db_user.created_at, now⟩) s)) ∧
      (∀ (p : UserUpdate) (u' : UserDB),
        (partial_update_user now uid p s).1 = .ok u' →
        u'.id = db_user.id ∧ u'.created_at = db_user.created_at ∧
        u'.updated_at = now ∧
        (p.name = none → u'.name = db_user.name) ∧
        (p.email = none → u'.email = db_user.email) ∧
        (p.age = none → u'.age = db_user.age) ∧
        (p.bio = none → u'.bio = db_user.bio)) := by
  intro now uid s db_user huid hf
  have hu : ¬ uid ≤ 0 := by omega
  constructor
  · simp [partial_update_user, if_neg hu, hf, validateUserUpdate, applyPatch]
  · intro p u' hok
    cases hv : validateUserUpdate p with
    | cons f fs => simp [partial_update_user, if_neg hu, hv] at hok
    | nil =>
      by_cases hc : (match p.email with
          | some (some e0) => db_user.email != some e0 && emailTaken e0 s
          | _ => false) = true
      · simp [partial_update_user, if_neg hu, hv, hf, hc] at hok
      · simp only [partial_update_user, if_neg hu, hv, hf] at hok
        rw [if_neg hc] at hok
        simp only [Except.ok.injEq] at hok
        obtain rfl := hok
        refine ⟨rfl, rfl, rfl, ?_, ?_, ?_, ?_⟩ <;>
          · intro hnone
            simp [applyPatch, hnone]

/-- Witness for C4 at a one-row table. -/
theorem C4_patch_frame_witness :
    partial_update_user 7 1 ⟨none, none, some (some 40), none⟩
        [⟨1, some "John Doe", some "john@example.com", some 30, some "dev",
          0, 0⟩] =
      (.ok ⟨1, some "John Doe", some "john@example.com", some 40, some "dev",
          0, 7⟩,
        setFirst (fun v => ((v.id : Int)) == 1)
          (fun _ => ⟨1, some "John Doe", some "john@example.com", some 40,
            some "dev", 0, 7⟩)
          [⟨1, some "John Doe", some "john@example.com", some 30, some "dev",
            0, 0⟩]) :=
  (C4_patch_frame 7 1
    [⟨1, some "John Doe", some "john@example.com", some 30, some "dev", 0, 0⟩]
    ⟨1, some "John Doe", some "john@example.com", some 30, some "dev", 0, 0⟩
    (by decide) rfl).1

/-- C10: a PATCH body may set any field to an explicit JSON `null`: the
`UserUpdate` validator accepts all-null bodies, the merge writes `NULL`
into the stored row (which persists), and a null email skips the
duplicate-email check entirely. -/
theorem C10_explicit_null_patch :
    ∀ (now : Nat) (uid : Int) (s : Store) (db_user : UserDB),
      0 < uid → findUser uid s = some db_user →
      validateUserUpdate ⟨some none, some none, some none, some none⟩ = [] ∧
      (partial_update_user now uid ⟨some none, some none, some none, some none⟩ s =
        (.ok ⟨db_user.id, none, none, none, none, db_user.created_at, now⟩,
          setFirst (fun v => ((v.id : Int)) == uid)
            (fun _ => ⟨db_user.id, none, none, none, none,
              db_user.created_at, now⟩) s)) ∧
      findUser uid (partial_update_user now uid
          ⟨some none, some none, some none, some none⟩ s).2 =
        some ⟨db_user.id, none, none, none, none, db_user.created_at, now⟩ ∧
      (∀ p : UserUpdate, validateUserUpdate p = [] → p.email = some none →
        (partial_update_user now uid p s).1 = .ok (applyPatch p db_user now) ∧
        (applyPatch p db_user now).email = none) := by
  intro now uid s db_user huid hf
  have hu : ¬ uid ≤ 0 := by omega
  have hmain : partial_update_user now uid
      ⟨some none, some none, some none, some none⟩ s =
      (.ok ⟨db_user.id, none, none, none, none, db_user.created_at, now⟩,
        setFirst (fun v => ((v.id : Int)) == uid)
          (fun _ => ⟨db_user.id, none, none, none, none,
            db_user.created_at, now⟩) s) := by
    simp [partial_update_user, if_neg hu, hf, validateUserUpdate, applyPatch]
  refine ⟨rfl, hmain, ?_, ?_⟩
  · obtain ⟨l₁, l₂, hs, hl₁, hdb, hset, hrem⟩ := find?_decomp hf
    rw [hmain]
    simp only [findUser]
    rw [hset]
    exact find?_middle hl₁ hdb
  · intro p hv hemail
    have hok : partial_update_user now uid p s =
        (.ok (applyPatch p db_user now),
          setFirst (fun v => ((v.id : Int)) == uid)
            (fun _ => applyPatch p db_user now) s) := by
      simp only [partial_update_user, if_neg hu, hv, hf]
      rw [if_neg (by rw [hemail]; simp)]
    refine ⟨by rw [hok], ?_⟩
    simp [applyPatch, hemail]

/-- Witness for C10: nulling every field of the only row. -/
theorem C10_explicit_null_patch_witness :
    partial_update_user 9 1 ⟨some none, some none, some none, some none⟩
        [⟨1, some "John Doe", some "john@example.com", some 30, some "dev",
          0, 0⟩] =
      (.ok ⟨1, none, none, none, none, 0, 9⟩,
        setFirst (fun v => ((v.id : Int)) == 1)
          (fun _ => ⟨1, none, none, none, none, 0, 9⟩)
          [⟨1, some "John Doe", some "john@example.com", some 30, some "dev",
            0, 0⟩]) :=
  (C10_explicit_null_patch 9 1
    [⟨1, some "John Doe", some "john@example.com", some 30, some "dev", 0, 0⟩]
    ⟨1, some "John Doe", some "john@example.com", some 30, some "dev", 0, 0⟩
    (by decide) rfl).2.1

/-- Empty needle: every string contains the empty substring. -/
lemma listHasSub_nil (l : List Char) : listHasSub [] l = true := by
  cases l <;> simp [listHasSub, listIsPre]

/-- Empty needle over a non-NULL column, spec side. -/
lemma subCol_empty {o : Option String} (h : o ≠ none) :
    subCol o "" = true := by
  rcases o with _ | x
  · exact absurd rfl h
  · simp [subCol, substrCI, listHasSub_nil]

/-- Fusion of two chained filters into one conjunctive filter. -/
lemma filter_chain2 (A B : UserDB → Bool) (s : Store) :
    (s.filter A).filter B = s.filter (fun u => A u && B u) := by
  rw [List.filter_filter]
  exact List.filter_congr (fun x _ => Bool.and_comm _ _)

/-- Fusion of three chained filters into one conjunctive filter. -/
lemma filter_chain3 (A B C : UserDB → Bool) (s : Store) :
    ((s.filter A).filter B).filter C = s.filter (fun u => A u && B u && C u) := by
  rw [List.filter_filter, List.filter_filter]
  refine List.filter_congr ?_
  intro x _
  cases A x <;> cases B x <;> cases C x <;> rfl

/-- With no name filter the chained query equals the conjunctive filter. -/
lemma applyFilters_none (min_age max_age : Option Int) (s : Store) :
    applyFilters none min_age max_age s =
      s.filter (fun u => matchesFilters none min_age max_age u) := by
  rcases min_age with _ | m1 <;> rcases max_age with _ | m2
  · simp [applyFilters, matchesFilters, List.filter_true]
  · simp [applyFilters, matchesFilters]
  · simp [applyFilters, matchesFilters]
  · simp only [applyFilters]
    rw [filter_chain2]
    refine List.filter_congr ?_
    intro u _
    simp [matchesFilters]

/-- The chained query of `get_users` computes exactly the spec-side
conjunctive filter — provided that, when the supplied name filter is the
empty string (which the handler treats as absent), no stored row has a
NULL name (an empty needle matches every non-NULL name). -/
lemma applyFilters_eq_filter (name : Option String) (min_age max_age : Option Int)
    (s : Store) (hW : ∀ nm ∈ name, noWild nm = true)
    (h6 : name = some "" → ∀ u ∈ s, u.name ≠ none) :
    applyFilters name min_age max_age s =
      s.filter (fun u => matchesFilters name min_age max_age u) := by
  rcases name with _ | nm
  · exact applyFilters_none min_age max_age s
  · have hWnm : noWild nm = true := hW nm rfl
    by_cases hnm : nm = ""
    · subst hnm
      have h1 : applyFilters (some "") min_age max_age s =
          applyFilters none min_age max_age s := rfl
      rw [h1, applyFilters_none]
      refine List.filter_congr ?_
      intro u hu
      have hname : subCol u.name "" = true :=
        subCol_empty (h6 rfl u hu)
      simp [matchesFilters, hname]
    · have hcc : ∀ u : UserDB, colContains u.name nm = subCol u.name nm :=
        fun u => colContains_eq_subCol u.name nm hWnm
      rcases min_age with _ | m1 <;> rcases max_age with _ | m2
      · simp only [applyFilters, ite_not]
        rw [if_neg hnm]
        refine List.filter_congr ?_
        intro u _
        simp [matchesFilters, hcc u]
      · simp only [applyFilters, ite_not]
        rw [if_neg hnm, filter_chain2]
        refine List.filter_congr ?_
        intro u _
        simp [matchesFilters, hcc u]
      · simp only [applyFilters, ite_not]
        rw [if_neg hnm, filter_chain2]
        refine List.filter_congr ?_
        intro u _
        simp [matchesFilters, hcc u]
      · simp only [applyFilters, ite_not]
        rw [if_neg hnm, filter_chain3]
        refine List.filter_congr ?_
        intro u _
        simp [matchesFilters, hcc u]

/-- Success path of `get_users`: with in-range parameters (and no NULL-name
row when the name filter is the empty string) the handler returns exactly
the spec-side conjunctive filter, skipped and truncated. -/
lemma get_users_ok (skip limit : Int) (name : Option String)
    (min_age max_age : Option Int) (s : Store)
    (h1 : 0 ≤ skip) (h2 : 1 ≤ limit) (h3 : limit ≤ 1000)
    (h4 : ∀ m ∈ min_age, 0 ≤ m) (h5 : ∀ m ∈ max_age, 0 ≤ m)
    (hW : ∀ nm ∈ name, noWild nm = true)
    (h6 : name = some "" → ∀ u ∈ s, u.name ≠ none) :
    get_users skip limit name min_age max_age s =
      (.ok (listSpec skip.toNat limit.toNat name min_age max_age s), s) := by
  simp only [get_users]
  split
  next hcond =>
    exfalso
    rcases min_age with _ | m1 <;> rcases max_age with _ | m2 <;>
      · simp only [Bool.or_eq_true, decide_eq_true_eq] at hcond
        simp only [Option.mem_def, Option.some.injEq, forall_eq] at h4 h5
        first
        | omega
        | (rcases hcond with ((((h | h) | h) | h) | h) <;> simp_all <;> omega)
  next hcond =>
    rw [applyFilters_eq_filter name min_age max_age s hW h6]
    rfl

/-- In-place replacement by an id-preserving function keeps the id column. -/
lemma setFirst_map_id {q : UserDB → Bool} {f : UserDB → UserDB}
    (hf : ∀ x, q x = true → (f x).id = x.id) (s : Store) :
    (setFirst q f s).map (·.id) = s.map (·.id) := by
  induction s with
  | nil => rfl
  | cons u us ih =>
    by_cases hq : q u
    · simp [setFirst, hq, hf u hq]
    · simp [setFirst, hq, ih]

/-- Removal yields a sublist of the table. -/
lemma removeFirst_sublist (q : UserDB → Bool) (s : Store) :
    (removeFirst q s).Sublist s := by
  induction s with
  | nil => simp [removeFirst]
  | cons u us ih =>
    by_cases hq : q u
    · rw [removeFirst, if_pos hq]
      exact List.sublist_cons_self u us
    · rw [removeFirst, if_neg hq]
      exact List.Sublist.cons₂ u ih

/-- Every reachable table is strictly increasing in `id` (rowid scan order
coincides with id order). -/
lemma reachable_sorted {s : Store} (h : Reachable s) :
    s.Pairwise (fun a b => a.id < b.id) := by
  induction h with
  | empty => simp
  | create now p hr ih =>
    rename_i s
    cases hv : validateUserCreate p with
    | cons f fs => simpa [create_user, hv] using ih
    | nil =>
      by_cases ht : emailTaken p.email s
      · simpa [create_user, hv, ht] using ih
      · have hst : (create_user now p s).2 = s ++
            [⟨nextId s, some p.name, some p.email, some p.age, p.bio, now, now⟩] := by
          simp [create_user, hv, ht]
        rw [hst, List.pairwise_append]
        refine ⟨ih, by simp, ?_⟩
        intro a ha b hb
        simp only [List.mem_singleton] at hb
        subst hb
        exact mem_id_lt_nextId s a ha
  | replace now uid p hr ih =>
    rename_i s
    by_cases hu : uid ≤ 0
    · simpa [update_user, hu] using ih
    · cases hv : validateUserCreate p with
      | cons f fs => simpa [update_user, hu, hv] using ih
      | nil =>
        cases hf : findUser uid s with
        | none => simpa [update_user, hu, hv, hf] using ih
        | some db_user =>
          by_cases hc : (db_user.email != some p.email && emailTaken p.email s) = true
          · simpa [update_user, hu, hv, hf, hc] using ih
          · have hst : (update_user now uid p s).2 =
                setFirst (fun v => ((v.id : Int)) == uid)
                  (fun _ => ⟨db_user.id, some p.name, some p.email, some p.age,
                    p.bio, db_user.created_at, now⟩) s := by
              simp only [update_user, if_neg hu, hv, hf]
              rw [if_neg hc]
            have hdb : ((db_user.id : Int)) = uid := by
              have := List.find?_some hf
              simpa using this
            have hq : ∀ x : UserDB, (fun v : UserDB => ((v.id : Int)) == uid) x = true →
                ((fun _ => (⟨db_user.id, some p.name, some p.email, some p.age,
                  p.bio, db_user.created_at, now⟩ : UserDB)) x).id = x.id := by
              intro x hx
              simp only [beq_iff_eq] at hx
              have : x.id = db_user.id := by
                have := hx.trans hdb.symm
                exact_mod_cast this
              simp [this]
            rw [hst]
            have ihm : ((s.map (·.id)).Pairwise (· < ·)) :=
              (List.pairwise_map).mpr ih
            have hmap := setFirst_map_id hq s
            have : ((setFirst (fun v => ((v.id : Int)) == uid)
                (fun _ => (⟨db_user.id, some p.name, some p.email, some p.age,
                  p.bio, db_user.created_at, now⟩ : UserDB)) s).map (·.id)).Pairwise
                (· < ·) := by
              rw [hmap]; exact ihm
            exact (List.pairwise_map).mp this
  | patch now uid p hr ih =>
    rename_i s
    by_cases hu : uid ≤ 0
    · simpa [partial_update_user, hu] using ih
    · cases hv : validateUserUpdate p with
      | cons f fs => simpa [partial_update_user, hu, hv] using ih
      | nil =>
        cases hf : findUser uid s with
        | none => simpa [partial_update_user, hu, hv, hf] using ih
        | some db_user =>
          by_cases hc : (match p.email with
              | some (some e0) => db_user.email != some e0 && emailTaken e0 s
              | _ => false) = true
          · simpa [partial_update_user, hu, hv, hf, hc] using ih
          · have hst : (partial_update_user now uid p s).2 =
                setFirst (fun v => ((v.id : Int)) == uid)
                  (fun _ => applyPatch p db_user now) s := by
              simp only [partial_update_user, if_neg hu, hv, hf]
              rw [if_neg hc]
            have hdb : ((db_user.id : Int)) = uid := by
              have := List.find?_some hf
              simpa using this
            have hq : ∀ x : UserDB, (fun v : UserDB => ((v.id : Int)) == uid) x = true →
                ((fun _ => applyPatch p db_user now) x).id = x.id := by
              intro x hx
              simp only [beq_iff_eq] at hx
              have : x.id = db_user.id := by
                have := hx.trans hdb.symm
                exact_mod_cast this
              simp [applyPatch, this]
            rw [hst]
            have ihm : ((s.map (·.id)).Pairwise (· < ·)) :=
              (List.pairwise_map).mpr ih
            have hmap := setFirst_map_id hq s
            have : ((setFirst (fun v => ((v.id : Int)) == uid)
                (fun _ => applyPatch p db_user now) s).map (·.id)).Pairwise
                (· < ·) := by
              rw [hmap]; exact ihm
            exact (List.pairwise_map).mp this
  | del uid hr ih =>
    rename_i s
    by_cases hu : uid ≤ 0
    · simpa [delete_user, hu] using ih
    · cases hf : findUser uid s with
      | none => simpa [delete_user, hu, hf] using ih
      | some db_user =>
        have hst : (delete_user uid s).2 =
            removeFirst (fun v => ((v.id : Int)) == uid) s := by
          simp [delete_user, hu, hf]
        rw [hst]
        exact List.Pairwise.sublist (removeFirst_sublist _ s) ih

/-- Counterexample to C7 as stated: the supplied name filter "J_hn" is not
a substring of "John Doe" (even after ASCII case folding), yet `list`
returns that row: the unescaped LIKE pattern lets `_` match the "o". -/
theorem C7_wildcard_counterexample :
    (get_users 0 100 (some "J_hn") none none searchDemo).1 =
      .ok [⟨1, some "John Doe", some "jd@x.com", some 30, none, 0, 0⟩] ∧
    subCol (some "John Doe") "J_hn" = false :=
  ⟨rfl, by decide⟩

/-- C7 (amended): the handler interprets the name filter as an unescaped
SQL LIKE pattern wrapped in `%…%`; for name filters free of `%` and `_`,
and with in-range parameters, `list` returns exactly the stored rows
satisfying the conjunction of all supplied filters (literal name
substring, inclusive age bounds), skips the first `skip` of them and
returns at most `limit`, in stored order; the defaults `skip=0`,
`limit=100` behave the same way; out-of-range `skip`/`limit` are rejected
at validation; and on every reachable table the result is strictly
increasing in `id` (insertion/rowid order). The empty-name-filter
hypothesis covers the handler's treatment of a falsy name filter as
absent, which agrees with empty-substring matching on every non-NULL
name. -/
theorem C7_list_contract :
    ∀ (skip limit : Int) (name : Option String) (min_age max_age : Option Int)
      (s : Store),
      (0 ≤ skip → 1 ≤ limit → limit ≤ 1000 →
        (∀ m ∈ min_age, 0 ≤ m) → (∀ m ∈ max_age, 0 ≤ m) →
        (∀ nm ∈ name, noWild nm = true) →
        (name = some "" → ∀ u ∈ s, u.name ≠ none) →
        get_users skip limit name min_age max_age s =
          (.ok (listSpec skip.toNat limit.toNat name min_age max_age s), s)) ∧
      ((∀ m ∈ min_age, 0 ≤ m) → (∀ m ∈ max_age, 0 ≤ m) →
        (∀ nm ∈ name, noWild nm = true) →
        (name = some "" → ∀ u ∈ s, u.name ≠ none) →
        get_users 0 100 name min_age max_age s =
          (.ok (listSpec 0 100 name min_age max_age s), s)) ∧
      ((skip < 0 ∨ limit < 1 ∨ 1000 < limit) →
        (get_users skip limit name min_age max_age s).1 =
          .error (.validation ["query"])) ∧
      (Reachable s →
        (listSpec skip.toNat limit.toNat name min_age max_age s).Pairwise
          (fun a b => a.id < b.id)) := by
  intro skip limit name min_age max_age s
  refine ⟨?_, ?_, ?_, ?_⟩
  · intro h1 h2 h3 h4 h5 hW h6
    exact get_users_ok skip limit name min_age max_age s h1 h2 h3 h4 h5 hW h6
  · intro h4 h5 hW h6
    exact get_users_ok 0 100 name min_age max_age s (by omega) (by omega)
      (by omega) h4 h5 hW h6
  · intro hbad
    simp only [get_users]
    rw [if_pos (by rcases hbad with h | h | h <;> simp [h])]
  · intro hr
    have hsub : (listSpec skip.toNat limit.toNat name min_age max_age s).Sublist s :=
      (List.take_sublist _ _).trans
        ((List.drop_sublist _ _).trans (List.filter_sublist s))
    exact List.Pairwise.sublist hsub (reachable_sorted hr)

/-- Witness for C7: pagination over the three-row demo table. -/
theorem C7_list_contract_witness :
    get_users 0 2 none none none searchDemo =
      (.ok (listSpec 0 2 none none none searchDemo), searchDemo) ∧
    get_users 2 2 none none none searchDemo =
      (.ok (listSpec 2 2 none none none searchDemo), searchDemo) :=
  ⟨(C7_list_contract 0 2 none none none searchDemo).1 (by omega) (by omega)
      (by omega) (by simp) (by simp) (by simp) (by simp),
   (C7_list_contract 2 2 none none none searchDemo).1 (by omega) (by omega)
      (by omega) (by simp) (by simp) (by simp) (by simp)⟩

/-- An email that the pre-check does not find occurs zero times. -/
lemma countP_zero_of_not_taken {e : String} {s : Store}
    (h : emailTaken e s = false) :
    s.countP (fun u => u.email == some e) = 0 := by
  simp only [emailTaken, List.any_eq_false] at h
  exact List.countP_eq_zero.mpr h

/-- A successful create preserves email uniqueness: the inserted email was
checked absent. -/
lemma emailUnique_create (now : Nat) (p : UserCreate) (s : Store)
    (h : EmailUnique s) : EmailUnique (create_user now p s).2 := by
  cases hv : validateUserCreate p with
  | cons f fs => simpa [create_user, hv] using h
  | nil =>
    by_cases ht : emailTaken p.email s
    · simpa [create_user, hv, ht] using h
    · intro e
      have hst : (create_user now p s).2 = s ++
          [⟨nextId s, some p.name, some p.email, some p.age, p.bio, now, now⟩] := by
        simp [create_user, hv, ht]
      rw [hst, List.countP_append]
      by_cases he : e = p.email
      · subst he
        have h0 : s.countP (fun u => u.email == some p.email) = 0 :=
          countP_zero_of_not_taken (by simpa using ht)
        rw [h0]
        simp [List.countP_cons]
      · have h1 : List.countP (fun u => u.email == some e)
            ([⟨nextId s, some p.name, some p.email, some p.age, p.bio, now,
              now⟩] : Store) = 0 := by
          simp only [List.countP_cons, List.countP_nil]
          have : ((some p.email : Option String) == some e) = false := by
            simp
            exact fun hh => he hh.symm
          simp [this]
        rw [h1]
        simpa using h e

/-- Bookkeeping for one in-place replacement: counts over the decomposed
table. -/
lemma countP_decomp (P : UserDB → Bool) (l₁ l₂ : Store) (x : UserDB) :
    List.countP P (l₁ ++ x :: l₂) =
      List.countP P l₁ + List.countP P l₂ + (if P x then 1 else 0) := by
  rw [List.countP_append, List.countP_cons]
  omega

/-- A successful replace preserves email uniqueness: the email either stays
what it was, or was checked absent from the whole table. -/
lemma emailUnique_update (now : Nat) (uid : Int) (p : UserCreate) (s : Store)
    (h : EmailUnique s) : EmailUnique (update_user now uid p s).2 := by
  by_cases hu : uid ≤ 0
  · simpa [update_user, hu] using h
  · cases hv : validateUserCreate p with
    | cons f fs => simpa [update_user, hu, hv] using h
    | nil =>
      cases hf : findUser uid s with
      | none => simpa [update_user, hu, hv, hf] using h
      | some db_user =>
        by_cases hc : (db_user.email != some p.email && emailTaken p.email s) = true
        · simpa [update_user, hu, hv, hf, hc] using h
        · have hst : (update_user now uid p s).2 =
              setFirst (fun v => ((v.id : Int)) == uid)
                (fun _ => ⟨db_user.id, some p.name, some p.email, some p.age,
                  p.bio, db_user.created_at, now⟩) s := by
            simp only [update_user, if_neg hu, hv, hf]
            rw [if_neg hc]
          obtain ⟨l₁, l₂, hs, hl₁, hdbq, hset, hrem⟩ := find?_decomp hf
          intro e
          rw [hst, hset, countP_decomp]
          have hold := h e
          rw [hs, countP_decomp] at hold
          have hc' : (db_user.email != some p.email && emailTaken p.email s) = false := by
            simpa using hc
          rcases Bool.and_eq_false_iff.mp hc' with hsame | htk
          · rw [bne_eq_false_iff_eq] at hsame
            rw [hsame] at hold
            simpa using hold
          · by_cases he : e = p.email
            · have hzero : s.countP (fun u => u.email == some e) = 0 := by
                rw [he]; exact countP_zero_of_not_taken htk
              rw [hs, countP_decomp] at hzero
              have h₁ : List.countP (fun u => u.email == some e) l₁ = 0 := by omega
              have h₂ : List.countP (fun u => u.email == some e) l₂ = 0 := by omega
              rw [h₁, h₂]
              split <;> omega
            · have hnew : (((⟨db_user.id, some p.name, some p.email, some p.age,
                  p.bio, db_user.created_at, now⟩ : UserDB).email == some e)) = false := by
                simp
                exact fun hh => he hh.symm
              simp [hnew]
              omega

/-- A successful partial update preserves email uniqueness: an unset email
is kept, an explicit null clears the column (a null matches no email), and
a value was either already the row's email or checked absent. -/
lemma emailUnique_patch (now : Nat) (uid : Int) (p : UserUpdate) (s : Store)
    (h : EmailUnique s) : EmailUnique (partial_update_user now uid p s).2 := by
  by_cases hu : uid ≤ 0
  · simpa [partial_update_user, hu] using h
  · cases hv : validateUserUpdate p with
    | cons f fs => simpa [partial_update_user, hu, hv] using h
    | nil =>
      cases hf : findUser uid s with
      | none => simpa [partial_update_user, hu, hv, hf] using h
      | some db_user =>
        by_cases hc : (match p.email with
            | some (some e0) => db_user.email != some e0 && emailTaken e0 s
            | _ => false) = true
        · simpa [partial_update_user, hu, hv, hf, hc] using h
        · have hst : (partial_update_user now uid p s).2 =
              setFirst (fun v => ((v.id : Int)) == uid)
                (fun _ => applyPatch p db_user now) s := by
            simp only [partial_update_user, if_neg hu, hv, hf]
            rw [if_neg hc]
          obtain ⟨l₁, l₂, hs, hl₁, hdbq, hset, hrem⟩ := find?_decomp hf
          intro e
          rw [hst, hset, countP_decomp]
          have hold := h e
          rw [hs, countP_decomp] at hold
          rcases hpe : p.email with _ | epay
          · have hkeep : (applyPatch p db_user now).email = db_user.email := by
              simp [applyPatch, hpe]
            simp only [hkeep]
            simpa using hold
          · rcases epay with _ | e0
            · have hclear : (applyPatch p db_user now).email = none := by
                simp [applyPatch, hpe]
              have hnew : ((applyPatch p db_user now).email == some e) = false := by
                rw [hclear]; rfl
              simp [hnew]
              omega
            · have hval : (applyPatch p db_user now).email = some e0 := by
                simp [applyPatch, hpe]
              rw [hpe] at hc
              have hc' : (db_user.email != some e0 && emailTaken e0 s) = false := by
                simpa using hc
              rcases Bool.and_eq_false_iff.mp hc' with hsame | htk
              · rw [bne_eq_false_iff_eq] at hsame
                rw [hval, ← hsame]
                simpa using hold
              · by_cases he : e = e0
                · have hzero : s.countP (fun u => u.email == some e) = 0 := by
                    rw [he]; exact countP_zero_of_not_taken htk
                  rw [hs, countP_decomp] at hzero
                  have h₁ : List.countP (fun u => u.email == some e) l₁ = 0 := by
                    omega
                  have h₂ : List.countP (fun u => u.email == some e) l₂ = 0 := by
                    omega
                  rw [h₁, h₂]
                  split <;> omega
                · have hnew : ((applyPatch p db_user now).email == some e) = false := by
                    rw [hval]
                    simp
                    exact fun hh => he hh.symm
                  simp [hnew]
                  omega

/-- Deletion preserves email uniqueness: counts only shrink. -/
lemma emailUnique_delete (uid : Int) (s : Store)
    (h : EmailUnique s) : EmailUnique (delete_user uid s).2 := by
  by_cases hu : uid ≤ 0
  · simpa [delete_user, hu] using h
  · cases hf : findUser uid s with
    | none => simpa [delete_user, hu, hf] using h
    | some db_user =>
      have hst : (delete_user uid s).2 =
          removeFirst (fun v => ((v.id : Int)) == uid) s := by
        simp [delete_user, hu, hf]
      intro e
      rw [hst]
      exact le_trans
        (List.Sublist.countP_le _ (removeFirst_sublist _ s)) (h e)

/-- C1: email uniqueness is an invariant of every reachable table state —
starting from the empty table, after any sequence of creates, replaces,
partial updates and deletes, at most one stored row carries any given
email. -/
theorem C1_email_uniqueness :
    ∀ s : Store, Reachable s → EmailUnique s := by
  intro s h
  induction h with
  | empty => intro e; simp
  | create now p hr ih => exact emailUnique_create now p _ ih
  | replace now uid p hr ih => exact emailUnique_update now uid p _ ih
  | patch now uid p hr ih => exact emailUnique_patch now uid p _ ih
  | del uid hr ih => exact emailUnique_delete uid _ ih

/-- Witness for C1 at the reachable one-row table. -/
theorem C1_email_uniqueness_witness :
    Reachable ((create_user 0 pJohn ([] : Store)).2) ∧
    List.countP (fun u => u.email == some "john@example.com")
      ((create_user 0 pJohn ([] : Store)).2) ≤ 1 :=
  ⟨Reachable.create 0 pJohn Reachable.empty,
   C1_email_uniqueness _ (Reachable.create 0 pJohn Reachable.empty)
     "john@example.com"⟩
